import Mathlib

/-!
Shallow embedding of the gocryptfs core, translated from the repository
sources:

* `cryptocore` (src/unnamed/part_001): `cryptocore.New` and its constants.
* `configfile` (src/unnamed/part_002): `CreateConfFile`, `LoadConfFile`,
  `ConfFile.EncryptKey`, `ConfFile.WriteFile`.
* `fusefrontend` (src/unnamed/part_003): the per-handle file operations
  `Read`, `Write`, `doWrite`, `Truncate`, `Release`, `Flush`, `Fsync`.

The content-encryption package (`contentenc`), the scrypt wrapper
(`scryptKdf`) and the feature-flag tables are not part of the provided
sources (only their callers and tests are); those definitions are modelled
from the specification and are marked `Modelled from the spec:` in their
doc comments.

Cryptographic primitives (scrypt, AES-GCM) are modelled ideally: a sealed
blob records the key and associated data it was produced with, and opening
succeeds exactly when all of them match.  Randomness (`RandBytes`) is made
explicit: random values are passed as arguments.  File-system side effects
are modelled as event traces driven by oracles that decide the success of
each underlying syscall.
-/

namespace Gocryptfs

/-- Byte strings are lists of naturals (each < 256 in practice; no claim
depends on the bound). -/
abbrev Bytes := List Nat

/-! ## cryptocore (src/unnamed/part_001) -/

/-- `cryptocore.KeyLen = 32` (AES-256). -/
def KeyLen : Nat := 32

/-- `cryptocore.AuthTagLen = 16`. -/
def AuthTagLen : Nat := 16

/-- The AEAD implementation selected by `cryptocore.New`: either the
OpenSSL-based `stupidgcm` (128-bit IVs only) or Go's built-in GCM with the
given IV length. -/
inductive AeadBackend where
  | stupidGcm : AeadBackend
  | goGCM (ivLen : Nat) : AeadBackend
deriving DecidableEq, Repr

/-- `cryptocore.CryptoCore`, keyed by an abstract key type `κ` (the Go code
uses raw 32-byte keys; the config-file layer keys it with the scrypt-derived
key). -/
structure CryptoCore (κ : Type) where
  key : κ
  IVLen : Nat
  backend : AeadBackend
deriving DecidableEq, Repr

/-- `cryptocore.New(key, useOpenssl, GCMIV128)` (src/unnamed/part_001
lines 24-60): IV length is 96/8 = 12 bytes, or 128/8 = 16 bytes when
`GCMIV128` is set; the OpenSSL backend is used only when `useOpenssl &&
GCMIV128`.  The key-length panic is outside the model (keys are abstract). -/
def cryptocoreNew {κ : Type} (key : κ) (useOpenssl : Bool) (GCMIV128 : Bool) :
    CryptoCore κ :=
  let ivLen := if GCMIV128 then 128 / 8 else 96 / 8
  { key := key
    IVLen := ivLen
    backend := if useOpenssl && GCMIV128 then .stupidGcm else .goGCM ivLen }

/-! ## contentenc (not in src/; modelled from the spec) -/

/-- Modelled from the spec: `contentenc.CurrentVersion`.  The `contentenc`
package is not in src/; §6 of the spec fixes the current on-disk format
version at 2 (and says value 1 must be rejected). -/
def CurrentVersion : Nat := 2

/-- Modelled from the spec: `contentenc.HEADER_LEN`.  §3 describes the file
header as a small fixed-length prefix holding a version tag and a random
file ID; the concrete value (2-byte version + 16-byte ID) is not used by
any claim, only its role as the offset of block 0. -/
def HEADER_LEN : Nat := 18

/-- Modelled from the spec: `contentenc.ContentEnc` as constructed by
`contentenc.New(cc, plainBS)` — a crypto core plus the plaintext block
size (4096 at every call site in src/). -/
structure ContentEnc (κ : Type) where
  cc : CryptoCore κ
  plainBS : Nat
deriving DecidableEq, Repr

/-- `contentenc.New(cc, plainBS)`. -/
def contentencNew {κ : Type} (cc : CryptoCore κ) (plainBS : Nat) : ContentEnc κ :=
  ⟨cc, plainBS⟩

/-- Modelled from the spec: per-block storage overhead — §3: ciphertext
block size = plaintext size + nonce + auth tag. -/
def ContentEnc.BlockOverhead {κ : Type} (ce : ContentEnc κ) : Nat :=
  ce.cc.IVLen + AuthTagLen

/-- Ciphertext block size: plaintext block size plus overhead (§3). -/
def ContentEnc.cipherBS {κ : Type} (ce : ContentEnc κ) : Nat :=
  ce.plainBS + ce.BlockOverhead

/-- Modelled from the spec: an AEAD-sealed block, idealized.  §4.1-§4.2: a
sealed blob can be opened only with the same key, the same nonce size, and
the same associated data (block number, file ID); the ideal model records
those values instead of real ciphertext bytes. -/
structure SealedBlock (κ : Type) where
  key : κ
  nonceLen : Nat
  plain : Bytes
  blockNo : Nat
  fileID : Option Bytes
deriving DecidableEq, Repr

/-- Modelled from the spec: `ContentEnc.EncryptBlock(plaintext, blockNo,
fileID)` — seals the plaintext under the core's key with associated data
(blockNo, fileID) (§4.2). -/
def ContentEnc.EncryptBlock {κ : Type} (ce : ContentEnc κ) (plain : Bytes)
    (blockNo : Nat) (fileID : Option Bytes) : SealedBlock κ :=
  ⟨ce.cc.key, ce.cc.IVLen, plain, blockNo, fileID⟩

/-- Modelled from the spec: `ContentEnc.DecryptBlock(ciphertext, blockNo,
fileID)` — opening succeeds (ideally) iff key, nonce size and associated
data all match; otherwise it is an authentication error (`none`). -/
def ContentEnc.DecryptBlock {κ : Type} [DecidableEq κ] (ce : ContentEnc κ)
    (c : SealedBlock κ) (blockNo : Nat) (fileID : Option Bytes) : Option Bytes :=
  if c.key = ce.cc.key ∧ c.nonceLen = ce.cc.IVLen ∧ c.blockNo = blockNo ∧
      c.fileID = fileID then
    some c.plain
  else
    none

/-! ## scrypt KDF (not in src/; modelled from the spec) -/

/-- Modelled from the spec: `configfile.scryptKdf` — §6/glossary: salt and
the (N, r, p) cost triple plus the derived key length, stored with the
wrapped master key. -/
structure ScryptKdf where
  Salt : Bytes
  N : Nat
  R : Nat
  P : Nat
  KeyLenField : Nat
deriving DecidableEq, Repr

/-- Modelled from the spec: `NewScryptKdf(logN)` — cost N = 2^logN (§4.4:
"derives a password key with scrypt at cost 2^logN"); the random salt is an
explicit argument.  R, P and the key length take scrypt's conventional
values; no claim depends on them. -/
def NewScryptKdf (logN : Nat) (salt : Bytes) : ScryptKdf :=
  ⟨salt, 2 ^ logN, 8, 1, KeyLen⟩

/-- The scrypt-derived key, idealized: derivation is injective in the
password and the parameter record. -/
abbrev DKey := String × ScryptKdf

/-- Modelled from the spec: `scryptKdf.DeriveKey(password)` — an ideal KDF:
two derivations agree exactly when password and parameters agree (§4.1). -/
def ScryptKdf.DeriveKey (kdf : ScryptKdf) (password : String) : DKey :=
  (password, kdf)

/-! ## configfile (src/unnamed/part_002) -/

/-- Known feature flags, as an enumeration (`configfile.flagIota`; the
table itself is not in src/ and is modelled from the spec §3: known flags
are DirIV, PlaintextNames, EMENames, GCMIV128, LongNames). -/
inductive FlagIota where
  | FlagPlaintextNames : FlagIota
  | FlagDirIV : FlagIota
  | FlagEMENames : FlagIota
  | FlagGCMIV128 : FlagIota
  | FlagLongNames : FlagIota
deriving DecidableEq, Repr

/-- Modelled from the spec: `configfile.knownFlags` — the name of each
known flag (§3). -/
def knownFlags : FlagIota → String
  | .FlagPlaintextNames => "PlaintextNames"
  | .FlagDirIV => "DirIV"
  | .FlagEMENames => "EMENames"
  | .FlagGCMIV128 => "GCMIV128"
  | .FlagLongNames => "LongNames"

/-- Modelled from the spec: `ConfFile.isFeatureFlagKnown` — a flag string
is known iff it names one of the five known flags (§3: "A flag unknown to
the reader is a hard load error"). -/
def isFeatureFlagKnown (flag : String) : Bool :=
  flag ∈ [knownFlags .FlagDirIV, knownFlags .FlagPlaintextNames,
    knownFlags .FlagEMENames, knownFlags .FlagGCMIV128,
    knownFlags .FlagLongNames]

/-- `configfile.ConfFile` (src/unnamed/part_002 lines 20-38).  The
`EncryptedKey` field holds the idealized sealed blob instead of raw bytes;
JSON (de)serialization is outside the model, so load operates on the
record itself. -/
structure ConfFile where
  Creator : String
  EncryptedKey : SealedBlock DKey
  ScryptObject : ScryptKdf
  Version : Nat
  FeatureFlags : List String
  filename : String
deriving DecidableEq, Repr

/-- `ConfFile.IsFeatureFlagSet` (not in src/; modelled from the spec):
whether the named flag appears in the config's flag list. -/
def ConfFile.IsFeatureFlagSet (cf : ConfFile) (i : FlagIota) : Bool :=
  knownFlags i ∈ cf.FeatureFlags

/-- Modelled from the spec: `configfile.requiredFlagsNormal` — the flags a
current normal-mode filesystem is expected to carry (§4.4 creation set for
`plaintext_names = false`, §4.4 load: "warns but continues on
missing-but-expected flag (legacy filesystems)").  Only the fact that a
missing member triggers the warning path matters to the claims. -/
def requiredFlagsNormal : List FlagIota :=
  [.FlagDirIV, .FlagEMENames, .FlagGCMIV128]

/-- Modelled from the spec: `configfile.requiredFlagsPlaintextNames` — the
expected flags when `PlaintextNames` is set (§4.4 creation set for
`plaintext_names = true`, minus `PlaintextNames` itself). -/
def requiredFlagsPlaintextNames : List FlagIota :=
  [.FlagGCMIV128]

/-- The required flags consulted by load for a given config (src
lines 103-108). -/
def ConfFile.requiredFlags (cf : ConfFile) : List FlagIota :=
  if cf.IsFeatureFlagSet .FlagPlaintextNames then requiredFlagsPlaintextNames
  else requiredFlagsNormal

/-- The required-but-missing flags, each of which is warned about by load
(src lines 109-127: "For now, warn but continue").  A nonempty result is
exactly the `deprecatedFs` warning state. -/
def ConfFile.missingRequiredFlags (cf : ConfFile) : List FlagIota :=
  cf.requiredFlags.filter (fun i => !cf.IsFeatureFlagSet i)

/-- `ConfFile.EncryptKey(key, password, logN)` (src/unnamed/part_002 lines
153-162): derives the password key with fresh scrypt parameters, builds a
crypto core with `cryptocore.New(scryptHash, false, false)` and a content
encryptor with block size 4096, and seals the master key as block 0 with a
nil file ID.  The random scrypt salt is an explicit argument. -/
def ConfFile.EncryptKey (cf : ConfFile) (key : Bytes) (password : String)
    (logN : Nat) (salt : Bytes) : ConfFile :=
  let scryptObject := NewScryptKdf logN salt
  let scryptHash := scryptObject.DeriveKey password
  let cc := cryptocoreNew scryptHash false false
  let ce := contentencNew cc 4096
  { cf with
    ScryptObject := scryptObject
    EncryptedKey := ce.EncryptBlock key 0 none }

/-- `CreateConfFile(filename, password, plaintextNames, logN, creator)`
(src/unnamed/part_002 lines 43-68), up to the final `WriteFile` (the disk
write is modelled separately by `ConfFile.WriteFile`).  The random master
key (`cryptocore.RandBytes(cryptocore.KeyLen)`) and the random scrypt salt
are explicit arguments. -/
def createConfFile (filename : String) (password : String)
    (plaintextNames : Bool) (logN : Nat) (creator : String)
    (masterKey : Bytes) (salt : Bytes) : ConfFile :=
  let cf : ConfFile :=
    { Creator := creator
      EncryptedKey := ⟨("", ⟨[], 0, 0, 0, 0⟩), 0, [], 0, none⟩
      ScryptObject := ⟨[], 0, 0, 0, 0⟩
      Version := CurrentVersion
      FeatureFlags := []
      filename := filename }
  let cf := cf.EncryptKey masterKey password logN salt
  let ff := cf.FeatureFlags ++ [knownFlags .FlagGCMIV128]
  let ff :=
    if plaintextNames then
      ff ++ [knownFlags .FlagPlaintextNames]
    else
      ff ++ [knownFlags .FlagDirIV] ++ [knownFlags .FlagEMENames] ++
        [knownFlags .FlagLongNames]
  { cf with FeatureFlags := ff }

/-- The errors `LoadConfFile` can return (the read / JSON-unmarshal errors
of lines 79-89 are outside the model, which starts from a parsed record). -/
inductive ConfError where
  | unsupportedVersion (v : Nat) : ConfError
  | unsupportedFlag (flag : String) : ConfError
  | passwordIncorrect : ConfError
deriving DecidableEq, Repr

/-- `LoadConfFile(filename, password)` (src/unnamed/part_002 lines 74-147),
starting from the parsed record: rejects a version other than
`contentenc.CurrentVersion`; rejects the first unknown feature flag; then
(after the warn-but-continue pass over required flags, see
`ConfFile.missingRequiredFlags`) derives the password key, builds the same
fixed crypto core (`cryptocore.New(scryptHash, false, false)`,
`contentenc.New(cc, 4096)`) and opens the wrapped key as block 0 with nil
file ID; an authentication failure becomes `passwordIncorrect`. -/
def loadConfFile (cf : ConfFile) (password : String) :
    Except ConfError (Bytes × ConfFile) :=
  if cf.Version ≠ CurrentVersion then
    .error (.unsupportedVersion cf.Version)
  else
    match cf.FeatureFlags.find? (fun flag => !isFeatureFlagKnown flag) with
    | some flag => .error (.unsupportedFlag flag)
    | none =>
      let scryptHash := cf.ScryptObject.DeriveKey password
      let cc := cryptocoreNew scryptHash false false
      let ce := contentencNew cc 4096
      match ce.DecryptBlock cf.EncryptedKey 0 none with
      | none => .error .passwordIncorrect
      | some key => .ok (key, cf)

/-- Events of `ConfFile.WriteFile`, with the success of each attempted
step recorded. -/
inductive CfgEvent where
  | openExcl (path : String) (perm : Nat) (ok : Bool) : CfgEvent
  | marshal (ok : Bool) : CfgEvent
  | writeJson (ok : Bool) : CfgEvent
  | syncFd (ok : Bool) : CfgEvent
  | closeFd (ok : Bool) : CfgEvent
  | rename (src : String) (dst : String) (ok : Bool) : CfgEvent
deriving DecidableEq, Repr

/-- Oracle deciding the success of each syscall made by `WriteFile`. -/
structure WriteOracle where
  openOk : Bool
  marshalOk : Bool
  writeOk : Bool
  syncOk : Bool
  closeOk : Bool
  renameOk : Bool

/-- `ConfFile.WriteFile` (src/unnamed/part_002 lines 167-196) as an event
trace plus a success bit: open `filename + ".tmp"` with
`O_WRONLY|O_CREATE|O_EXCL` and mode 0400 (= 256), marshal the JSON, write
it, sync, close, and only then rename the temp file over `filename`; every
failing step returns immediately. -/
def ConfFile.WriteFile (cf : ConfFile) (o : WriteOracle) :
    List CfgEvent × Bool :=
  let tmp := cf.filename ++ ".tmp"
  if !o.openOk then ([.openExcl tmp 256 false], false)
  else if !o.marshalOk then ([.openExcl tmp 256 true, .marshal false], false)
  else if !o.writeOk then
    ([.openExcl tmp 256 true, .marshal true, .writeJson false], false)
  else if !o.syncOk then
    ([.openExcl tmp 256 true, .marshal true, .writeJson true, .syncFd false],
      false)
  else if !o.closeOk then
    ([.openExcl tmp 256 true, .marshal true, .writeJson true, .syncFd true,
      .closeFd false], false)
  else if !o.renameOk then
    ([.openExcl tmp 256 true, .marshal true, .writeJson true, .syncFd true,
      .closeFd true, .rename tmp cf.filename false], false)
  else
    ([.openExcl tmp 256 true, .marshal true, .writeJson true, .syncFd true,
      .closeFd true, .rename tmp cf.filename true], true)

/-! ## contentenc block geometry (not in src/; modelled from the spec §4.2) -/

/-- Modelled from the spec: a block descriptor produced by
`explode_plain_range` — §4.2: "Each descriptor carries: block number; byte
offset within the block at which the covered region begins (Skip); length
of the covered region within that block; a flag indicating whether the
block is only partially covered" (the flag is computed, see
`IntraBlock.IsPartialBlock`). -/
structure IntraBlock where
  BlockNo : Nat
  Skip : Nat
  Length : Nat
deriving DecidableEq, Repr

/-- Worker for `ExplodePlainRange` with explicit fuel (each step covers at
least one byte, so `fuel = length` suffices; the Go loop needs no fuel). -/
def explodeGo (plainBS : Nat) : Nat → Nat → Nat → List IntraBlock
  | 0, _, _ => []
  | fuel + 1, offset, length =>
    if length = 0 then []
    else
      let skip := offset % plainBS
      let blen := min length (plainBS - skip)
      ⟨offset / plainBS, skip, blen⟩ ::
        explodeGo plainBS fuel (offset + blen) (length - blen)

/-- Modelled from the spec: `ContentEnc.ExplodePlainRange(offset, length)`
— splits the plaintext byte range `[offset, offset+length)` into
per-block descriptors (§4.2, used by src/unnamed/part_003 in `doRead`,
`doWrite` and `Truncate`). -/
def ExplodePlainRange (plainBS : Nat) (offset : Nat) (length : Nat) :
    List IntraBlock :=
  explodeGo plainBS length offset length

/-- Modelled from the spec: `intraBlock.IsPartial` (source name `IsPartial`)
— the block is only partially covered when the covered region does not
start at the block start or does not fill the whole block. -/
def IntraBlock.IsPartialBlock (b : IntraBlock) (plainBS : Nat) : Bool :=
  decide (0 < b.Skip) || decide (b.Length < plainBS)

/-- The plaintext byte offset at which the covered region of `b` begins. -/
def IntraBlock.coverStart (b : IntraBlock) (plainBS : Nat) : Nat :=
  b.BlockNo * plainBS + b.Skip

/-- Modelled from the spec: `intraBlock.PlaintextRange` — the block-aligned
plaintext range of the block (offset of the block start, block size);
`Truncate` adds `Skip` to its offset before writing (src/unnamed/part_003
lines 411-412). -/
def IntraBlock.PlaintextRange (b : IntraBlock) (plainBS : Nat) : Nat × Nat :=
  (b.BlockNo * plainBS, plainBS)

/-- Modelled from the spec: `BlockNoToCipherOff` — §6: the backing file is
`header || block_0 || block_1 || …`, so block `n` starts at
`HEADER_LEN + n * cipherBS`. -/
def BlockNoToCipherOff (cipherBS : Nat) (blockNo : Nat) : Nat :=
  HEADER_LEN + blockNo * cipherBS

/-- Modelled from the spec: `intraBlock.CiphertextRange` — the ciphertext
range of the whole block (used by `doWrite` for preallocation and the
write, and by the growing `Truncate` for its `Ftruncate` target). -/
def IntraBlock.CiphertextRange (b : IntraBlock) (cipherBS : Nat) : Nat × Nat :=
  (BlockNoToCipherOff cipherBS b.BlockNo, cipherBS)

/-- Modelled from the spec: `PlainOffToBlockNo` — the block number holding
a plaintext offset. -/
def PlainOffToBlockNo (plainBS : Nat) (off : Nat) : Nat :=
  off / plainBS

/-! ## fusefrontend file handles (src/unnamed/part_003) -/

/-- The FUSE status codes the modelled operations can produce.  All
underlying syscall failures (`fuse.ToStatus(err)`) are collapsed into the
generic `ioErr`. -/
inductive FStatus where
  | OK : FStatus
  | EBADF : FStatus
  | EIO : FStatus
  | ENOSYS : FStatus
  | ioErr : FStatus
deriving DecidableEq, Repr

/-- The fields of `fusefrontend.file` (src/unnamed/part_003 lines 23-47)
the modelled control flow depends on, together with the state of the
backing descriptor: a Go `os.File` of the `go1.5`-era toolchain this code
targets (see the build tag in src/unnamed/part_000) stores the raw fd and
`Close` replaces it with -1, so `fdValid = false` models a handle whose
descriptor has been closed by `Release`.  The content encryptor and the
cached header are behind the oracles of the individual operations. -/
structure FileSt where
  released : Bool
  fdValid : Bool
  writeOnly : Bool
  ino : Nat
deriving DecidableEq, Repr

/-- A syscall issued through the handle's descriptor: on a closed
descriptor the stored fd is -1 and the kernel deterministically returns
EBADF, which `fuse.ToStatus` maps to `fuse.EBADF` (unwrapping the
`os.PathError` around the errno where the os package adds one); on a live
descriptor the outcome `env` is decided by the environment. -/
def fdSyscall (fdValid : Bool) (env : FStatus) : FStatus :=
  if fdValid then env else .EBADF

/-- `file.Read` (lines 187-209): under the shared descriptor lock it
checks `writeOnly` (there is no handle-level `released` check) and
otherwise runs `doRead`, whose every path starts by touching the
descriptor (`fd.ReadAt` of the header at line 84 or of the ciphertext at
line 150), so on a closed descriptor it fails with the syscall's EBADF;
on a live descriptor the outcome `env` covers the rest of the read
path. -/
def fileReadStatus (f : FileSt) (env : FStatus) : FStatus :=
  if f.writeOnly then .EBADF else fdSyscall f.fdValid env

/-- `file.Write` (lines 285-314): under the shared descriptor lock, a
released handle short-circuits to `EBADF` at the handle level; otherwise
the body (Fstat, zero padding, `doWrite`, abstracted as `env`) starts by
touching the descriptor. -/
def fileWriteStatus (f : FileSt) (env : FStatus) : FStatus :=
  if f.released then .EBADF else fdSyscall f.fdValid env

/-- `file.Truncate` (lines 354-363): a released handle short-circuits to
`EBADF` at the handle level; otherwise the body operates on the
descriptor. -/
def fileTruncateStatus (f : FileSt) (env : FStatus) : FStatus :=
  if f.released then .EBADF else fdSyscall f.fdValid env

/-- `file.Flush` (lines 330-344): no handle-level `released` check — it
runs `syscall.Dup` on the descriptor unconditionally, which on a closed
handle is `Dup(-1)` and deterministically returns EBADF. -/
def fileFlushStatus (f : FileSt) (env : FStatus) : FStatus :=
  fdSyscall f.fdValid env

/-- `file.Fsync` (lines 346-351): no handle-level `released` check —
`syscall.Fsync` on a closed handle is `Fsync(-1)` and deterministically
returns EBADF. -/
def fileFsyncStatus (f : FileSt) (env : FStatus) : FStatus :=
  fdSyscall f.fdValid env

/-- The steps `file.Release` performs, in order. -/
inductive RelEvent where
  | lockEx : RelEvent
  | closeFd : RelEvent
  | setReleased : RelEvent
  | unlockEx : RelEvent
  | wlockUnregister (ino : Nat) : RelEvent
deriving DecidableEq, Repr

/-- Outcome of `file.Release`: either the process panics (double release)
or the handle transitions to the released state with the given effects. -/
inductive RelResult where
  | panicked : RelResult
  | ok (f : FileSt) (evs : List RelEvent) : RelResult
deriving DecidableEq, Repr

/-- `file.Release` (src/unnamed/part_003 lines 317-327): takes the
exclusive descriptor lock; `log.Panicf` on a second release; otherwise
closes the descriptor, sets `released`, drops the lock and unregisters the
inode from the write-lock table. -/
def fileRelease (f : FileSt) : RelResult :=
  if f.released then .panicked
  else
    .ok { f with released := true, fdValid := false }
      [.lockEx, .closeFd, .setReleased, .unlockEx, .wlockUnregister f.ino]

/-! ### doWrite (src/unnamed/part_003 lines 220-282) -/

/-- Oracle deciding the success of the I/O performed by `doWrite`: the
read-modify-write `doRead` of a block, the `prealloc` of a block's
ciphertext range, the `WriteAt` of a block, and the header prealloc/write
of `createHeader`. -/
structure IOOracle where
  readOk : Nat → Bool
  preallocOk : Nat → Bool
  writeOk : Nat → Bool
  headerPreallocOk : Bool
  headerWriteOk : Bool

/-- Observable events of a `doWrite` call, each tagged with the block
number it concerns and (for fallible steps) whether the step succeeded. -/
inductive WEvent where
  | rmwRead (blockNo : Nat) : WEvent
  | encrypt (blockNo : Nat) : WEvent
  | prealloc (blockNo : Nat) (ok : Bool) : WEvent
  | writeAt (blockNo : Nat) (ok : Bool) : WEvent
  | headerPrealloc (ok : Bool) : WEvent
  | headerWrite (ok : Bool) : WEvent
deriving DecidableEq, Repr

/-- The per-block loop of `doWrite` (lines 236-281).  For each block, in
source order: a partial block is first read back (read-modify-write; a
failed read returns at once); the block is then encrypted
(`EncryptBlock`, line 259); its ciphertext range is preallocated
(line 264) — a failure breaks out of the loop; finally the block is
written (`WriteAt`, line 272) — a failure also breaks out. -/
def doWriteLoop (plainBS : Nat) (o : IOOracle) :
    List IntraBlock → List WEvent × FStatus
  | [] => ([], .OK)
  | b :: rest =>
    let rmwEvs : List WEvent :=
      if b.IsPartialBlock plainBS then [.rmwRead b.BlockNo] else []
    if b.IsPartialBlock plainBS && !o.readOk b.BlockNo then
      ([.rmwRead b.BlockNo], .ioErr)
    else if !o.preallocOk b.BlockNo then
      (rmwEvs ++ [.encrypt b.BlockNo, .prealloc b.BlockNo false], .ioErr)
    else if !o.writeOk b.BlockNo then
      (rmwEvs ++ [.encrypt b.BlockNo, .prealloc b.BlockNo true,
        .writeAt b.BlockNo false], .ioErr)
    else
      let r := doWriteLoop plainBS o rest
      (rmwEvs ++ [.encrypt b.BlockNo, .prealloc b.BlockNo true,
        .writeAt b.BlockNo true] ++ r.1, r.2)

/-- `file.doWrite(data, off)` (lines 220-282) as an event trace.
`hasHeader` is true when the file already has a header (`f.header` cached
or readable); on an empty file `createHeader` first preallocates and
writes the header (lines 98-117), returning early on failure.  The
`readHeader` I/O-error path (neither cached header nor empty file) returns
before any event of interest and is outside the model. -/
def doWriteTrace (plainBS : Nat) (o : IOOracle) (hasHeader : Bool)
    (off : Nat) (len : Nat) : List WEvent × FStatus :=
  let blocks := ExplodePlainRange plainBS off len
  if hasHeader then
    doWriteLoop plainBS o blocks
  else if !o.headerPreallocOk then
    ([.headerPrealloc false], .ioErr)
  else if !o.headerWriteOk then
    ([.headerPrealloc true, .headerWrite false], .ioErr)
  else
    let r := doWriteLoop plainBS o blocks
    (.headerPrealloc true :: .headerWrite true :: r.1, r.2)

/-! ### Truncate (src/unnamed/part_003 lines 354-455) -/

/-- The backing-store actions `file.Truncate` performs (error paths and
locking aside): `ftrunc` is a `syscall.Ftruncate` of the ciphertext file to
the given size, `zeroWrite` is a `doWrite` of a zero buffer at the given
plaintext offset and length, `mkHeader` is `createHeader`, `readTail` /
`rewriteTail` are the shrink path's read and re-encryption of the final
partial block. -/
inductive TAction where
  | ftrunc (size : Nat) : TAction
  | zeroWrite (off : Nat) (len : Nat) : TAction
  | mkHeader : TAction
  | readTail (off : Nat) (len : Nat) : TAction
  | rewriteTail (off : Nat) : TAction
deriving DecidableEq, Repr

/-- `file.Truncate(newSize)` (lines 354-455) as its sequence of
backing-store actions, given the old plaintext size (the code derives it
from `Fstat` via `CipherSizeToPlainSize`).
* `newSize = 0`: ftruncate to 0 (and drop the header).
* `newSize = oldSize`: nothing.
* Growing: create a header if the file was empty; then for every block of
  the grown range, a partial block gets a `doWrite` of `b.Length` zero
  bytes at its covered offset, while a fully covered block only gets an
  `Ftruncate` of the backing file to the end of that ciphertext block
  (lines 408-424).
* Shrinking: read the kept prefix of the target block (if any), ftruncate
  to the block's ciphertext start, and rewrite the prefix. -/
def truncateActions (plainBS : Nat) (cipherBS : Nat) (oldSize : Nat)
    (newSize : Nat) : List TAction :=
  if newSize = 0 then [.ftrunc 0]
  else if newSize = oldSize then []
  else if oldSize < newSize then
    (if oldSize = 0 then [.mkHeader] else []) ++
      (ExplodePlainRange plainBS oldSize (newSize - oldSize)).map (fun b =>
        if b.IsPartialBlock plainBS then
          .zeroWrite ((b.PlaintextRange plainBS).1 + b.Skip) b.Length
        else
          .ftrunc ((b.CiphertextRange cipherBS).1 + (b.CiphertextRange cipherBS).2))
  else
    let blockNo := PlainOffToBlockNo plainBS newSize
    let cipherOff := BlockNoToCipherOff cipherBS blockNo
    let plainOff := blockNo * plainBS
    let lastBlockLen := newSize - plainOff
    (if 0 < lastBlockLen then [.readTail plainOff lastBlockLen] else []) ++
      [.ftrunc cipherOff] ++
      (if 0 < lastBlockLen then [.rewriteTail plainOff] else [])

/-! ### Write-past-EOF zero padding (src/unnamed/part_003 lines 285-314) -/

/-- Modelled from the spec: `file.createsHole(plainSize, off)` — the file
`file_holes.go` is not in src/ (only its caller `file.Write` is); §4.5:
"If a write starts beyond the current plaintext size, the handle first
zero-pads up to the write offset". -/
def createsHole (plainSize : Nat) (off : Nat) : Bool :=
  decide (plainSize < off)

/-- Modelled from the spec: the zero-padding performed by `file.zeroPad`
ahead of a write past EOF — §4.5: the gap from the current plaintext size
up to the write offset is zero-padded "via the same mechanism as growing
truncation", i.e. a zero-filled plaintext write for each newly exposed
block (§9: "Growing writes must materialize zero-filled plaintext for
each newly exposed block").  Each pair is (plaintext offset, length) of a
zero write. -/
def zeroPadPlan (plainBS : Nat) (plainSize : Nat) (off : Nat) :
    List (Nat × Nat) :=
  (ExplodePlainRange plainBS plainSize (off - plainSize)).map (fun b =>
    (b.coverStart plainBS, b.Length))

/-- The plaintext writes performed by `file.Write(data, off)` (lines
285-314) after its gate: if the write starts beyond the current plaintext
size it first zero-pads the gap (`createsHole` / `zeroPad`), then performs
the data write `(off, len)` via `doWrite`.  Returns (zero writes, data
write). -/
def fileWritePlan (plainBS : Nat) (plainSize : Nat) (off : Nat) (len : Nat) :
    List (Nat × Nat) × (Nat × Nat) :=
  (if createsHole plainSize off then zeroPadPlan plainBS plainSize off else [],
    (off, len))

/-! ## Theorems about the config file layer -/

/-- The flag list written by `createConfFile` never contains an unknown
flag, so load's unknown-flag scan finds nothing. -/
lemma createConfFile_findUnknown_eq_none (filename password : String)
    (plaintextNames : Bool) (logN : Nat) (creator : String)
    (masterKey salt : Bytes) :
    (createConfFile filename password plaintextNames logN creator masterKey
        salt).FeatureFlags.find? (fun flag => !isFeatureFlagKnown flag) =
      none := by
  cases plaintextNames <;> rfl

/-- Claim C6: at config creation the feature-flag set is exactly
{GCMIV128, PlaintextNames} when plaintext names are requested and exactly
{GCMIV128, DirIV, EMENames, LongNames} otherwise. -/
theorem createConfFile_flag_sets (filename password : String)
    (plaintextNames : Bool) (logN : Nat) (creator : String)
    (masterKey salt : Bytes) :
    (createConfFile filename password plaintextNames logN creator masterKey
        salt).FeatureFlags =
      if plaintextNames then ["GCMIV128", "PlaintextNames"]
      else ["GCMIV128", "DirIV", "EMENames", "LongNames"] := by
  cases plaintextNames <;> rfl

/-- Claim C4: loading a config created with password `pw` using `pw`
returns the master key that creation generated, and loading it with any
other password returns the password-incorrect error. -/
theorem conf_create_load_roundtrip (filename password : String)
    (plaintextNames : Bool) (logN : Nat) (creator : String)
    (masterKey salt : Bytes) :
    loadConfFile
        (createConfFile filename password plaintextNames logN creator
          masterKey salt) password =
      .ok (masterKey,
        createConfFile filename password plaintextNames logN creator
          masterKey salt) ∧
    ∀ password' : String, password' ≠ password →
      loadConfFile
          (createConfFile filename password plaintextNames logN creator
            masterKey salt) password' =
        .error .passwordIncorrect := by
  have hfind := createConfFile_findUnknown_eq_none filename password
    plaintextNames logN creator masterKey salt
  constructor
  · cases plaintextNames <;>
      simp_all [loadConfFile, createConfFile, ConfFile.EncryptKey,
        contentencNew, cryptocoreNew, ScryptKdf.DeriveKey,
        ContentEnc.EncryptBlock, ContentEnc.DecryptBlock, CurrentVersion]
  · intro password' hne
    cases plaintextNames <;>
      simp_all [loadConfFile, createConfFile, ConfFile.EncryptKey,
        contentencNew, cryptocoreNew, ScryptKdf.DeriveKey,
        ContentEnc.EncryptBlock, ContentEnc.DecryptBlock, CurrentVersion,
        Ne.symm hne]

/-- Witness for C4 at concrete inputs. -/
theorem conf_create_load_roundtrip_witness :
    loadConfFile
        (createConfFile "t.conf" "foo" false 10 "v1.0"
          (List.replicate 32 7) [1, 2]) "foo" =
      .ok (List.replicate 32 7,
        createConfFile "t.conf" "foo" false 10 "v1.0"
          (List.replicate 32 7) [1, 2]) ∧
    ("bar" : String) ≠ "foo" ∧
    loadConfFile
        (createConfFile "t.conf" "foo" false 10 "v1.0"
          (List.replicate 32 7) [1, 2]) "bar" =
      .error .passwordIncorrect := by
  have h := conf_create_load_roundtrip "t.conf" "foo" false 10 "v1.0"
    (List.replicate 32 7) [1, 2]
  exact ⟨h.1, by decide, h.2 "bar" (by decide)⟩

/-- Claim C5: load rejects a config whose version differs from the current
version 2; rejects one containing a flag unknown to the reader; and when a
required flag is merely missing it warns (nonempty
`missingRequiredFlags`) but still proceeds to the key unlock. -/
theorem loadConfFile_checks :
    (∀ (cf : ConfFile) (password : String),
      cf.Version ≠ CurrentVersion →
        loadConfFile cf password = .error (.unsupportedVersion cf.Version)) ∧
    (∀ (cf : ConfFile) (password flag : String),
      cf.Version = CurrentVersion → flag ∈ cf.FeatureFlags →
      isFeatureFlagKnown flag = false →
        ∃ flag', isFeatureFlagKnown flag' = false ∧
          loadConfFile cf password = .error (.unsupportedFlag flag')) ∧
    (∀ (cf : ConfFile) (password : String) (i : FlagIota),
      cf.Version = CurrentVersion →
      (∀ fl ∈ cf.FeatureFlags, isFeatureFlagKnown fl = true) →
      i ∈ cf.requiredFlags → cf.IsFeatureFlagSet i = false →
        cf.missingRequiredFlags ≠ [] ∧
          (loadConfFile cf password = .error .passwordIncorrect ∨
            ∃ key, loadConfFile cf password = .ok (key, cf))) := by
  refine ⟨?_, ?_, ?_⟩
  · intro cf password h
    simp only [loadConfFile, if_pos h]
  · intro cf password flag hv hmem hunk
    have hsome : (cf.FeatureFlags.find?
        (fun fl => !isFeatureFlagKnown fl)).isSome = true := by
      rw [List.find?_isSome]
      exact ⟨flag, hmem, by simp [hunk]⟩
    obtain ⟨flag', hfind⟩ := Option.isSome_iff_exists.1 hsome
    refine ⟨flag', ?_, ?_⟩
    · have := List.find?_some hfind
      simpa using this
    · simp only [loadConfFile, hv, hfind]
      simp
  · intro cf password i hv hall hreq hset
    constructor
    · exact List.ne_nil_of_mem
        (List.mem_filter.2 ⟨hreq, by simp [hset]⟩)
    · have hfind : cf.FeatureFlags.find?
          (fun fl => !isFeatureFlagKnown fl) = none := by
        rw [List.find?_eq_none]
        intro x hx
        simp [hall x hx]
      simp only [loadConfFile, hv, hfind]
      cases hdec : (contentencNew
          (cryptocoreNew (cf.ScryptObject.DeriveKey password) false false)
          4096).DecryptBlock cf.EncryptedKey 0 none with
      | none => exact Or.inl (by simp [hdec])
      | some key => exact Or.inr ⟨key, by simp [hdec]⟩

/-- Witness for C5 at concrete configs: a version-1 config is rejected, a
config with flag "StrangeFeature" is rejected, and a v2 config missing the
required GCMIV128 flag warns yet continues to the key unlock. -/
theorem loadConfFile_checks_witness :
    (loadConfFile
        { Creator := "", EncryptedKey := ⟨("", ⟨[], 0, 0, 0, 0⟩), 0, [], 0, none⟩,
          ScryptObject := ⟨[], 0, 0, 0, 0⟩, Version := 1, FeatureFlags := [],
          filename := "" } "t" =
      .error (.unsupportedVersion 1)) ∧
    (∃ flag', isFeatureFlagKnown flag' = false ∧
      loadConfFile
          { Creator := "", EncryptedKey := ⟨("", ⟨[], 0, 0, 0, 0⟩), 0, [], 0, none⟩,
            ScryptObject := ⟨[], 0, 0, 0, 0⟩, Version := 2,
            FeatureFlags := ["GCMIV128", "StrangeFeature"], filename := "" }
          "t" = .error (.unsupportedFlag flag')) ∧
    (ConfFile.missingRequiredFlags
        { Creator := "", EncryptedKey := ⟨("", ⟨[], 0, 0, 0, 0⟩), 0, [], 0, none⟩,
          ScryptObject := ⟨[], 0, 0, 0, 0⟩, Version := 2,
          FeatureFlags := ["DirIV", "EMENames"], filename := "" } ≠ [] ∧
      (loadConfFile
          { Creator := "", EncryptedKey := ⟨("", ⟨[], 0, 0, 0, 0⟩), 0, [], 0, none⟩,
            ScryptObject := ⟨[], 0, 0, 0, 0⟩, Version := 2,
            FeatureFlags := ["DirIV", "EMENames"], filename := "" } "t" =
        .error .passwordIncorrect ∨
        ∃ key, loadConfFile
            { Creator := "", EncryptedKey := ⟨("", ⟨[], 0, 0, 0, 0⟩), 0, [], 0, none⟩,
              ScryptObject := ⟨[], 0, 0, 0, 0⟩, Version := 2,
              FeatureFlags := ["DirIV", "EMENames"], filename := "" } "t" =
          .ok (key,
            { Creator := "", EncryptedKey := ⟨("", ⟨[], 0, 0, 0, 0⟩), 0, [], 0, none⟩,
              ScryptObject := ⟨[], 0, 0, 0, 0⟩, Version := 2,
              FeatureFlags := ["DirIV", "EMENames"], filename := "" }))) := by
  refine ⟨?_, ?_, ?_⟩
  · exact loadConfFile_checks.1 _ "t" (by decide)
  · exact loadConfFile_checks.2.1 _ "t" "StrangeFeature" (by decide)
      (by decide) (by decide)
  · exact loadConfFile_checks.2.2 _ "t" .FlagGCMIV128 (by decide)
      (by decide) (by decide) (by decide)

/-- Claim C8: every config write goes to `filename + ".tmp"` opened with
mode 0400 (= 256); the rename over the final path happens only as the last
step of a fully successful sequence, so an error at any step leaves the
final path unreplaced. -/
theorem writeFile_tmp_rename_atomic (cf : ConfFile) (o : WriteOracle) :
    (cf.WriteFile o).1.head? =
      some (.openExcl (cf.filename ++ ".tmp") 256 o.openOk) ∧
    ((cf.WriteFile o).2 = false →
      CfgEvent.rename (cf.filename ++ ".tmp") cf.filename true ∉
        (cf.WriteFile o).1) ∧
    ((cf.WriteFile o).2 = true →
      (cf.WriteFile o).1 =
        [.openExcl (cf.filename ++ ".tmp") 256 true, .marshal true,
          .writeJson true, .syncFd true, .closeFd true,
          .rename (cf.filename ++ ".tmp") cf.filename true]) := by
  obtain ⟨o1, o2, o3, o4, o5, o6⟩ := o
  cases o1 <;> cases o2 <;> cases o3 <;> cases o4 <;> cases o5 <;> cases o6 <;>
    simp [ConfFile.WriteFile]

/-- Witness for C8 at a concrete config whose sync step fails: the trace
starts at the temp file with mode 0400 and contains no successful
rename. -/
theorem writeFile_tmp_rename_atomic_witness :
    ((ConfFile.WriteFile
        { Creator := "", EncryptedKey := ⟨("", ⟨[], 0, 0, 0, 0⟩), 0, [], 0, none⟩,
          ScryptObject := ⟨[], 0, 0, 0, 0⟩, Version := 2, FeatureFlags := [],
          filename := "g.conf" } ⟨true, true, true, false, true, true⟩).1.head? =
      some (.openExcl ("g.conf" ++ ".tmp") 256 true)) ∧
    CfgEvent.rename ("g.conf" ++ ".tmp") "g.conf" true ∉
      (ConfFile.WriteFile
        { Creator := "", EncryptedKey := ⟨("", ⟨[], 0, 0, 0, 0⟩), 0, [], 0, none⟩,
          ScryptObject := ⟨[], 0, 0, 0, 0⟩, Version := 2, FeatureFlags := [],
          filename := "g.conf" } ⟨true, true, true, false, true, true⟩).1 := by
  have h := writeFile_tmp_rename_atomic
    { Creator := "", EncryptedKey := ⟨("", ⟨[], 0, 0, 0, 0⟩), 0, [], 0, none⟩,
      ScryptObject := ⟨[], 0, 0, 0, 0⟩, Version := 2, FeatureFlags := [],
      filename := "g.conf" } ⟨true, true, true, false, true, true⟩
  exact ⟨h.1, h.2.1 (by decide)⟩

/-- Claim C9: both key wrapping (`EncryptKey`) and unwrapping
(`LoadConfFile`) build the crypto core with `cryptocore.New(hash, false,
false)` — 96-bit (12-byte) nonces, Go GCM rather than OpenSSL — and a
4096-byte content encryptor, sealing/opening the master key as block 0
with a nil file ID; consequently the wrapped blob is independent of the
config's feature flags (in particular of GCMIV128). -/
theorem conf_key_wrap_fixed_params :
    (∀ (κ : Type) (key : κ),
      (cryptocoreNew key false false).IVLen = 12 ∧
      (cryptocoreNew key false false).backend = .goGCM 12) ∧
    (∀ h : DKey, (contentencNew (cryptocoreNew h false false) 4096).plainBS = 4096) ∧
    (∀ (cf : ConfFile) (key : Bytes) (password : String) (logN : Nat)
        (salt : Bytes),
      (cf.EncryptKey key password logN salt).EncryptedKey =
        ⟨(password, NewScryptKdf logN salt), 12, key, 0, none⟩) ∧
    (∀ (cf cf' : ConfFile) (key : Bytes) (password : String) (logN : Nat)
        (salt : Bytes),
      (cf.EncryptKey key password logN salt).EncryptedKey =
        (cf'.EncryptKey key password logN salt).EncryptedKey) ∧
    (∀ (cf : ConfFile) (password : String) (key : Bytes),
      cf.Version = CurrentVersion →
      cf.FeatureFlags.find? (fun fl => !isFeatureFlagKnown fl) = none →
        (loadConfFile cf password = .ok (key, cf) ↔
          cf.EncryptedKey =
            ⟨(password, cf.ScryptObject), 12, key, 0, none⟩)) := by
  refine ⟨?_, ?_, ?_, ?_, ?_⟩
  · intro κ key
    exact ⟨rfl, rfl⟩
  · intro h
    rfl
  · intro cf key password logN salt
    rfl
  · intro cf cf' key password logN salt
    rfl
  · intro cf password key hv hfind
    have hv' : ¬cf.Version ≠ CurrentVersion := by simp [hv]
    rcases hE : cf.EncryptedKey with ⟨ekk, ekn, ekp, ekb, ekf⟩
    have hcc : contentencNew
        (cryptocoreNew (cf.ScryptObject.DeriveKey password) false false)
        4096 =
        ⟨⟨(password, cf.ScryptObject), 12, .goGCM 12⟩, 4096⟩ := rfl
    simp only [loadConfFile, if_neg hv', hfind, hcc, hE]
    simp only [ContentEnc.DecryptBlock]
    split_ifs with hc
    · obtain ⟨h1, h2, h3, h4⟩ := hc
      subst h1 h2 h3 h4
      constructor
      · intro hok
        have hkey : ekp = key := by
          simp only [Except.ok.injEq, Prod.mk.injEq] at hok
          exact hok.1
        simp [hkey]
      · intro hmk
        simp only [SealedBlock.mk.injEq] at hmk
        simp [hmk.2.2.1]
    · constructor
      · intro hok
        simp at hok
      · intro hmk
        simp only [SealedBlock.mk.injEq] at hmk
        exact absurd ⟨hmk.1, hmk.2.1, hmk.2.2.2.1, hmk.2.2.2.2⟩ hc

/-- Witness for C9 at a concrete config: load succeeds exactly on the
fixed-format blob. -/
theorem conf_key_wrap_fixed_params_witness :
    loadConfFile
        { Creator := "c", EncryptedKey := ⟨("pw", ⟨[3], 1024, 8, 1, 32⟩), 12, [9], 0, none⟩,
          ScryptObject := ⟨[3], 1024, 8, 1, 32⟩, Version := 2,
          FeatureFlags := ["GCMIV128"], filename := "f" } "pw" =
      .ok ([9],
        { Creator := "c", EncryptedKey := ⟨("pw", ⟨[3], 1024, 8, 1, 32⟩), 12, [9], 0, none⟩,
          ScryptObject := ⟨[3], 1024, 8, 1, 32⟩, Version := 2,
          FeatureFlags := ["GCMIV128"], filename := "f" }) := by
  exact (conf_key_wrap_fixed_params.2.2.2.2
    { Creator := "c", EncryptedKey := ⟨("pw", ⟨[3], 1024, 8, 1, 32⟩), 12, [9], 0, none⟩,
      ScryptObject := ⟨[3], 1024, 8, 1, 32⟩, Version := 2,
      FeatureFlags := ["GCMIV128"], filename := "f" } "pw" [9]
    (by decide) (by decide)).2 (by decide)

/-! ## Theorems about the file-handle layer -/

/-- Claim C1 (refuted: the code contradicts the spec's requirement): a
growing truncate does not write zero-filled plaintext blocks for every
newly exposed block.  With plaintext block size 4096 and ciphertext block
size 4128 (GCMIV128 file format), growing a 4096-byte file to 12288 bytes
exposes exactly the two fully covered blocks 1 and 2, and the code merely
`Ftruncate`s the backing file to their ciphertext ends (18 + 2·4128 = 8274,
then 18 + 3·4128 = 12402), creating unauthenticated ciphertext holes; no
zero-filled plaintext block is written at all. -/
theorem truncate_grow_ftruncates_full_blocks :
    truncateActions 4096 4128 4096 12288 =
      [.ftrunc 8274, .ftrunc 12402] ∧
    (truncateActions 4096 4128 4096 12288).all
      (fun a => match a with
        | TAction.zeroWrite _ _ => false
        | _ => true) = true :=
  ⟨rfl, rfl⟩

/-- Claim C2: `Release` — the only assignment of the released flag —
leaves the handle with the flag set and the descriptor closed, and on
every such handle each of Read, Write, Truncate, Flush and Fsync fails
with the bad-descriptor status: Write and Truncate through their
handle-level flag check, Read, Flush and Fsync through the EBADF their
first syscall returns on the closed descriptor (fd -1), whatever the
environment `env` would have answered on a live descriptor. -/
theorem released_ops_ebadf :
    (∀ (g f : FileSt) (evs : List RelEvent),
      fileRelease g = .ok f evs → f.released = true ∧ f.fdValid = false) ∧
    (∀ (f : FileSt) (env : FStatus),
      f.released = true → f.fdValid = false →
        fileReadStatus f env = .EBADF ∧
        fileWriteStatus f env = .EBADF ∧
        fileTruncateStatus f env = .EBADF ∧
        fileFlushStatus f env = .EBADF ∧
        fileFsyncStatus f env = .EBADF) := by
  constructor
  · intro g f evs h
    by_cases hg : g.released = true
    · simp [fileRelease, hg] at h
    · simp only [fileRelease, hg, if_false, Bool.false_eq_true,
        RelResult.ok.injEq] at h
      obtain ⟨h1, -⟩ := h
      subst h1
      exact ⟨rfl, rfl⟩
  · intro f env hrel hfd
    refine ⟨?_, ?_, ?_, ?_, ?_⟩ <;>
      simp [fileReadStatus, fileWriteStatus, fileTruncateStatus,
        fileFlushStatus, fileFsyncStatus, fdSyscall, hrel, hfd]

/-- Witness for C2 at a concrete released handle (flag set, descriptor
closed) with the environment answering `OK`: all five operations still
return EBADF. -/
theorem released_ops_ebadf_witness :
    (FileSt.mk true false false 0).released = true ∧
    (FileSt.mk true false false 0).fdValid = false ∧
    (fileReadStatus ⟨true, false, false, 0⟩ .OK = .EBADF ∧
      fileWriteStatus ⟨true, false, false, 0⟩ .OK = .EBADF ∧
      fileTruncateStatus ⟨true, false, false, 0⟩ .OK = .EBADF ∧
      fileFlushStatus ⟨true, false, false, 0⟩ .OK = .EBADF ∧
      fileFsyncStatus ⟨true, false, false, 0⟩ .OK = .EBADF) :=
  ⟨by decide, by decide,
    released_ops_ebadf.2 ⟨true, false, false, 0⟩ .OK (by decide) (by decide)⟩

/-- Claim C3 counterexample: in `doWrite` the block is encrypted before
its ciphertext range is preallocated, so a preallocation failure does not
abort "before any block is encrypted".  Concretely: a one-block write whose
preallocation fails still carries an `encrypt` event. -/
theorem doWrite_encrypts_before_prealloc_cex :
    WEvent.prealloc 0 false ∈
      (doWriteTrace 4096
        ⟨fun _ => true, fun _ => false, fun _ => true, true, true⟩
        true 0 4096).1 ∧
    WEvent.encrypt 0 ∈
      (doWriteTrace 4096
        ⟨fun _ => true, fun _ => false, fun _ => true, true, true⟩
        true 0 4096).1 := by
  decide

/-- In the `doWrite` block loop, a block's `WriteAt` is only ever reached
after its preallocation succeeded. -/
lemma doWriteLoop_writeAt_prealloc (plainBS : Nat) (o : IOOracle) :
    ∀ (blocks : List IntraBlock) (bno : Nat),
      WEvent.writeAt bno true ∈ (doWriteLoop plainBS o blocks).1 →
      o.preallocOk bno = true := by
  intro blocks
  induction blocks with
  | nil =>
    intro bno h
    simp [doWriteLoop] at h
  | cons b rest ih =>
    intro bno h
    by_cases hpart : b.IsPartialBlock plainBS = true <;>
      by_cases hread : o.readOk b.BlockNo = true <;>
      by_cases hpre : o.preallocOk b.BlockNo = true <;>
      by_cases hwrite : o.writeOk b.BlockNo = true <;>
      simp [doWriteLoop, hpart, hread, hpre, hwrite] at h <;>
      (rcases h with h | h
       · subst h
         exact hpre
       · exact ih bno h)

/-- In the `doWrite` block loop, a failed preallocation is the last event
of the call (the loop breaks at once) and the call reports an error. -/
lemma doWriteLoop_prealloc_fail_last (plainBS : Nat) (o : IOOracle) :
    ∀ (blocks : List IntraBlock) (bno : Nat),
      WEvent.prealloc bno false ∈ (doWriteLoop plainBS o blocks).1 →
      (doWriteLoop plainBS o blocks).1.getLast? =
        some (.prealloc bno false) ∧
      (doWriteLoop plainBS o blocks).2 = .ioErr := by
  intro blocks
  induction blocks with
  | nil =>
    intro bno h
    simp [doWriteLoop] at h
  | cons b rest ih =>
    intro bno h
    by_cases hpart : b.IsPartialBlock plainBS = true <;>
      by_cases hread : o.readOk b.BlockNo = true <;>
      by_cases hpre : o.preallocOk b.BlockNo = true <;>
      by_cases hwrite : o.writeOk b.BlockNo = true <;>
      simp [doWriteLoop, hpart, hread, hpre, hwrite] at h ⊢ <;>
      first
        | (subst h; simp [List.getLast?])
        | (have hr := ih bno h
           refine ⟨?_, hr.2⟩
           rw [show (WEvent.writeAt b.BlockNo true ::
               (doWriteLoop plainBS o rest).1) =
               [WEvent.writeAt b.BlockNo true] ++
                 (doWriteLoop plainBS o rest).1 from rfl,
             List.getLast?_append, hr.1]
           rfl)

/-- Claim C3 as amended: if preallocation of a block's ciphertext range
fails, the write is aborted at once — the failing preallocation is the
last event and the call errors out — and a block's data is only ever
written after its preallocation succeeded, so no block is half-written. -/
theorem doWrite_no_half_written_block (plainBS : Nat) (o : IOOracle)
    (hasHeader : Bool) (off len bno : Nat) :
    (WEvent.writeAt bno true ∈ (doWriteTrace plainBS o hasHeader off len).1 →
      o.preallocOk bno = true) ∧
    (WEvent.prealloc bno false ∈ (doWriteTrace plainBS o hasHeader off len).1 →
      (doWriteTrace plainBS o hasHeader off len).1.getLast? =
        some (.prealloc bno false) ∧
      (doWriteTrace plainBS o hasHeader off len).2 = .ioErr) := by
  cases hasHeader with
  | true =>
    constructor
    · intro h
      exact doWriteLoop_writeAt_prealloc plainBS o _ bno
        (by simpa [doWriteTrace] using h)
    · intro h
      have := doWriteLoop_prealloc_fail_last plainBS o
        (ExplodePlainRange plainBS off len) bno (by simpa [doWriteTrace] using h)
      simpa [doWriteTrace] using this
  | false =>
    by_cases hhp : o.headerPreallocOk = true <;>
      by_cases hhw : o.headerWriteOk = true
    · have ht : doWriteTrace plainBS o false off len =
          (.headerPrealloc true :: .headerWrite true ::
            (doWriteLoop plainBS o (ExplodePlainRange plainBS off len)).1,
            (doWriteLoop plainBS o (ExplodePlainRange plainBS off len)).2) := by
        simp [doWriteTrace, hhp, hhw]
      constructor
      · intro h
        rw [ht] at h
        simp only [List.mem_cons] at h
        rcases h with h | h | h
        · exact absurd h (by simp)
        · exact absurd h (by simp)
        · exact doWriteLoop_writeAt_prealloc plainBS o _ bno h
      · intro h
        rw [ht] at h ⊢
        simp only [List.mem_cons] at h
        rcases h with h | h | h
        · exact absurd h (by simp)
        · exact absurd h (by simp)
        · have hr := doWriteLoop_prealloc_fail_last plainBS o
            (ExplodePlainRange plainBS off len) bno h
          dsimp only
          refine ⟨?_, hr.2⟩
          rw [show (WEvent.headerPrealloc true :: WEvent.headerWrite true ::
              (doWriteLoop plainBS o (ExplodePlainRange plainBS off len)).1) =
              ([WEvent.headerPrealloc true, WEvent.headerWrite true] ++
                (doWriteLoop plainBS o (ExplodePlainRange plainBS off len)).1)
            from rfl, List.getLast?_append, hr.1]
          rfl
    · constructor <;> intro h <;> simp [doWriteTrace, hhp, hhw] at h
    · constructor <;> intro h <;> simp [doWriteTrace, hhp, hhw] at h
    · constructor <;> intro h <;> simp [doWriteTrace, hhp, hhw] at h

/-- Witness for the amended C3: a two-block write where preallocation of
block 1 fails after block 0 went through; block 0's write had a
successful preallocation, and the failing preallocation ends the trace
with an error status. -/
theorem doWrite_no_half_written_block_witness :
    (WEvent.writeAt 0 true ∈
      (doWriteTrace 4096
        ⟨fun _ => true, fun b => decide (b = 0), fun _ => true, true, true⟩
        true 0 8192).1 ∧
      IOOracle.preallocOk
        ⟨fun _ => true, fun b => decide (b = 0), fun _ => true, true, true⟩ 0 = true) ∧
    (WEvent.prealloc 1 false ∈
      (doWriteTrace 4096
        ⟨fun _ => true, fun b => decide (b = 0), fun _ => true, true, true⟩
        true 0 8192).1 ∧
      (doWriteTrace 4096
        ⟨fun _ => true, fun b => decide (b = 0), fun _ => true, true, true⟩
        true 0 8192).1.getLast? = some (.prealloc 1 false) ∧
      (doWriteTrace 4096
        ⟨fun _ => true, fun b => decide (b = 0), fun _ => true, true, true⟩
        true 0 8192).2 = .ioErr) := by
  have h := doWrite_no_half_written_block 4096
    ⟨fun _ => true, fun b => decide (b = 0), fun _ => true, true, true⟩
    true 0 8192
  exact ⟨⟨by decide, (h 0).1 (by decide)⟩,
    ⟨by decide, (h 1).2 (by decide)⟩⟩

/-- Every block descriptor of `explodeGo` stays within the exploded
range: its covered region starts at or after `offset` and ends at or
before `offset + length`. -/
lemma explodeGo_sound (plainBS : Nat) :
    ∀ (fuel offset length : Nat) (b : IntraBlock),
      b ∈ explodeGo plainBS fuel offset length →
      offset ≤ b.coverStart plainBS ∧
      b.coverStart plainBS + b.Length ≤ offset + length := by
  intro fuel
  induction fuel with
  | zero =>
    intro offset length b hb
    simp [explodeGo] at hb
  | succ n ih =>
    intro offset length b hb
    by_cases hlen : length = 0
    · simp [explodeGo, hlen] at hb
    · simp only [explodeGo, if_neg hlen, List.mem_cons] at hb
      have hdm : offset / plainBS * plainBS + offset % plainBS = offset := by
        rw [mul_comm]
        exact Nat.div_add_mod offset plainBS
      rcases hb with rfl | hb
      · refine ⟨?_, ?_⟩
        · simp [IntraBlock.coverStart, hdm]
        · have hmin : min length (plainBS - offset % plainBS) ≤ length :=
            min_le_left _ _
          simp only [IntraBlock.coverStart]
          omega
      · have hmin : min length (plainBS - offset % plainBS) ≤ length :=
          min_le_left _ _
        have := ih (offset + min length (plainBS - offset % plainBS))
          (length - min length (plainBS - offset % plainBS)) b hb
        omega

/-- With a positive block size, the block descriptors of `explodeGo`
cover every byte of the exploded range (given enough fuel, which the
wrapper `ExplodePlainRange` always supplies). -/
lemma explodeGo_covers (plainBS : Nat) (hbs : 0 < plainBS) :
    ∀ (fuel offset length i : Nat), length ≤ fuel →
      offset ≤ i → i < offset + length →
      ∃ b ∈ explodeGo plainBS fuel offset length,
        b.coverStart plainBS ≤ i ∧ i < b.coverStart plainBS + b.Length := by
  intro fuel
  induction fuel with
  | zero =>
    intro offset length i hfuel hlo hhi
    omega
  | succ n ih =>
    intro offset length i hfuel hlo hhi
    have hlen : length ≠ 0 := by omega
    have hdm : offset / plainBS * plainBS + offset % plainBS = offset := by
      rw [mul_comm]
      exact Nat.div_add_mod offset plainBS
    have hmodlt : offset % plainBS < plainBS := Nat.mod_lt _ hbs
    have hblpos : 0 < min length (plainBS - offset % plainBS) := by omega
    by_cases hi : i < offset + min length (plainBS - offset % plainBS)
    · refine ⟨⟨offset / plainBS, offset % plainBS,
        min length (plainBS - offset % plainBS)⟩, ?_, ?_⟩
      · simp [explodeGo, if_neg hlen]
      · simp only [IntraBlock.coverStart]
        omega
    · have hmin : min length (plainBS - offset % plainBS) ≤ length :=
        min_le_left _ _
      obtain ⟨b, hb, hcov⟩ := ih
        (offset + min length (plainBS - offset % plainBS))
        (length - min length (plainBS - offset % plainBS)) i
        (by omega) (by omega) (by omega)
      refine ⟨b, ?_, hcov⟩
      simp only [explodeGo, if_neg hlen, List.mem_cons]
      exact Or.inr hb

/-- Claim C7: a write starting strictly beyond the current plaintext size
first zero-pads exactly the gap from the current size up to the write
offset (block by block, the growing-truncation mechanism) and then
performs the data write at the requested offset. -/
theorem write_past_eof_zero_pads (plainBS plainSize off len : Nat)
    (hbs : 0 < plainBS) (h : plainSize < off) :
    (fileWritePlan plainBS plainSize off len).2 = (off, len) ∧
    (fileWritePlan plainBS plainSize off len).1 =
      zeroPadPlan plainBS plainSize off ∧
    ∀ i : Nat, (plainSize ≤ i ∧ i < off) ↔
      ∃ p ∈ (fileWritePlan plainBS plainSize off len).1,
        p.1 ≤ i ∧ i < p.1 + p.2 := by
  have hhole : createsHole plainSize off = true := by
    simp [createsHole, h]
  refine ⟨rfl, by simp [fileWritePlan, hhole], ?_⟩
  intro i
  simp only [fileWritePlan, hhole, if_pos]
  constructor
  · rintro ⟨hlo, hhi⟩
    obtain ⟨b, hb, hcov⟩ := explodeGo_covers plainBS hbs (off - plainSize)
      plainSize (off - plainSize) i le_rfl hlo (by omega)
    refine ⟨(b.coverStart plainBS, b.Length), ?_, ?_⟩
    · simp only [zeroPadPlan, ExplodePlainRange, List.mem_map]
      exact ⟨b, hb, rfl⟩
    · exact hcov
  · rintro ⟨p, hp, hlo, hhi⟩
    simp only [zeroPadPlan, ExplodePlainRange, List.mem_map] at hp
    obtain ⟨b, hb, rfl⟩ := hp
    have := explodeGo_sound plainBS (off - plainSize) plainSize
      (off - plainSize) b hb
    constructor
    · omega
    · omega

/-- Witness for C7 at the spec's scenario 6 geometry: a 1-byte write at
offset 8193 on a file of plaintext size 100. -/
theorem write_past_eof_zero_pads_witness :
    (0 < 4096 ∧ 100 < 8193) ∧
    ((fileWritePlan 4096 100 8193 1).2 = (8193, 1) ∧
      (fileWritePlan 4096 100 8193 1).1 = zeroPadPlan 4096 100 8193 ∧
      ∀ i : Nat, (100 ≤ i ∧ i < 8193) ↔
        ∃ p ∈ (fileWritePlan 4096 100 8193 1).1,
          p.1 ≤ i ∧ i < p.1 + p.2) :=
  ⟨by decide, write_past_eof_zero_pads 4096 100 8193 1 (by decide) (by decide)⟩

/-- Claim C10: releasing an already-released handle panics; a single
release closes the descriptor and sets the released flag between taking
and dropping the exclusive descriptor lock, and only afterwards
unregisters the inode from the write-lock table. -/
theorem release_semantics (f : FileSt) :
    (f.released = true → fileRelease f = .panicked) ∧
    (f.released = false →
      fileRelease f = .ok { f with released := true, fdValid := false }
        [.lockEx, .closeFd, .setReleased, .unlockEx,
          .wlockUnregister f.ino]) := by
  constructor <;> intro h <;> simp [fileRelease, h]

/-- Witness for C10: a released handle panics on a second release; a live
handle transitions to released (descriptor closed) with the expected
effect order. -/
theorem release_semantics_witness :
    fileRelease ⟨true, false, false, 3⟩ = .panicked ∧
    fileRelease ⟨false, true, true, 5⟩ =
      .ok ⟨true, false, true, 5⟩
        [.lockEx, .closeFd, .setReleased, .unlockEx, .wlockUnregister 5] :=
  ⟨(release_semantics ⟨true, false, false, 3⟩).1 (by decide),
    (release_semantics ⟨false, true, true, 5⟩).2 (by decide)⟩

end Gocryptfs
